import Mathlib

/- A Lean model of the metadata-cleaner engine (src/metadata_cleaner.py).
   Path names and tag names are modelled as character lists / strings;
   Python dicts keyed by strings are association lists with Python dict
   insertion semantics; fallible I/O primitives (PIL, pikepdf, subprocess,
   os rename) are oracles of type Except String _, mirroring the
   try/except structure of the source. -/

deriving instance DecidableEq for Except

namespace MetadataCleaner

/-- Python dict lookup: the value at the (unique) matching key, if any. -/
def dictGet {α : Type} (d : List (String × α)) (k : String) : Option α :=
  (d.find? (fun p => p.1 == k)).map (fun p => p.2)

/-- Python d.get(k, default). -/
def dictGetD {α : Type} (d : List (String × α)) (k : String) (v : α) : α :=
  (dictGet d k).getD v

/-- Python dict assignment d[k] = v: overwrite in place if the key exists,
    else append a new entry. -/
def dictSet {α : Type} (d : List (String × α)) (k : String) (v : α) : List (String × α) :=
  if d.any (fun p => p.1 == k) then d.map (fun p => if p.1 = k then (k, v) else p)
  else d ++ [(k, v)]

/-- Python base.update(upd): assign every entry of upd into base in order. -/
def dictUpdate {α : Type} (base upd : List (String × α)) : List (String × α) :=
  upd.foldl (fun acc p => dictSet acc p.1 p.2) base

/-- pathlib suffix/stem split of a file name: i = name.rfind(dot); if
    0 < i < len(name)-1 the name splits as (name.take i, name.drop i),
    else the stem is the whole name and the suffix is empty. -/
def splitExt (s : List Char) : List Char × List Char :=
  match s.reverse.span (fun c => c != '.') with
  | (_, []) => (s, [])
  | (revRest, _ :: revStem) =>
    if revStem = [] then (s, [])
    else if revRest = [] then (s, [])
    else (revStem.reverse, '.' :: revRest.reverse)

/-- pathlib Path.with_suffix: drop the current suffix, append the new one. -/
def with_suffixName (s : List Char) (newSuffix : List Char) : List Char :=
  (splitExt s).1 ++ newSuffix

/-- Image extensions recognized by get_file_type. -/
def IMAGE_EXTS : List String := [".jpg", ".jpeg", ".png", ".tiff", ".tif"]

/-- Media-container extensions recognized by get_file_type. -/
def MEDIA_EXTS : List String := [".mp4", ".mov", ".avi", ".mkv", ".mp3", ".wav", ".flac"]

/-- path.suffix.lower() for a file name. -/
def extOfName (s : List Char) : String :=
  String.mk ((splitExt s).2.map Char.toLower)

/-- The extension comparison chain of get_file_type. -/
def classifyExt (ext : String) : String :=
  if ext ∈ IMAGE_EXTS then "image"
  else if ext ∈ MEDIA_EXTS then "media"
  else if ext = ".pdf" then "pdf"
  else "other"

/-- get_file_type from src/metadata_cleaner.py: classify a file name by its
    lowercased extension. -/
def get_file_type (s : List Char) : String :=
  classifyExt (extOfName s)

/-- Bool test: sub occurs as a contiguous sublist (Python substring test). -/
def listIsInfix (sub : List Char) : List Char → Bool
  | [] => sub.isPrefixOf []
  | c :: rest => sub.isPrefixOf (c :: rest) || listIsInfix sub rest

/-- Python: sub in s (substring containment). -/
def containsSub (s sub : String) : Bool := listIsInfix sub.data s.data

/-- Python: s.startswith(pre). -/
def strStartsWith (s pre : String) : Bool := pre.data.isPrefixOf s.data

/-- DEFAULT_RULES from src/metadata_cleaner.py. -/
def DEFAULT_RULES : List (String × Bool) :=
  [("remove_gps", true), ("remove_timestamps", true), ("remove_camera", true),
   ("remove_xmp", true), ("remove_iptc", true), ("keep_icc", true),
   ("keep_orientation", true)]

/-- TIMESTAMP_TAGS from src/metadata_cleaner.py. -/
def TIMESTAMP_TAGS : List String := ["DateTime", "DateTimeOriginal", "CreateDate"]

/-- CAMERA_TAGS from src/metadata_cleaner.py. -/
def CAMERA_TAGS : List String := ["Make", "Model", "LensModel", "LensMake"]

/-- _normalize_rules from src/metadata_cleaner.py: None becomes the default
    dict; otherwise the defaults are copied and updated with the caller's
    entries. -/
def normalize_rules (rules : Option (List (String × Bool))) : List (String × Bool) :=
  match rules with
  | none => DEFAULT_RULES
  | some r => dictUpdate DEFAULT_RULES r

/-- The keep_always set built at the top of clean_image_lossless. -/
def keep_always (rules : List (String × Bool)) : List String :=
  let base := ["XResolution", "YResolution", "ResolutionUnit"]
  let base1 := if dictGetD rules "keep_orientation" true then base ++ ["Orientation"] else base
  if dictGetD rules "keep_icc" true then base1 ++ ["ICCProfile"] else base1

/-- The per-tag branch chain of the loop body in clean_image_lossless:
    true when the tag id is appended to keys_to_delete. -/
def losslessDelete (rules : List (String × Bool)) (tag_name : String) : Bool :=
  if tag_name ∈ keep_always rules then false
  else if dictGetD rules "remove_gps" true && strStartsWith tag_name "GPS" then true
  else if dictGetD rules "remove_timestamps" true && tag_name ∈ TIMESTAMP_TAGS then true
  else if dictGetD rules "remove_camera" true && tag_name ∈ CAMERA_TAGS then true
  else if dictGetD rules "remove_xmp" true && containsSub tag_name "XMP" then true
  else if dictGetD rules "remove_iptc" true && containsSub tag_name "IPTC" then true
  else true

/-- The tag dictionary surviving clean_image_lossless: the rules are
    normalized and every tag collected in keys_to_delete is deleted.
    Tag ids are identified with their resolved tag names. -/
def cleanImageLosslessTags (rules : List (String × Bool))
    (exif : List (String × String)) : List (String × String) :=
  let r := normalize_rules (some rules)
  exif.filter (fun p => !(losslessDelete r p.1))

/-- The RuleSet record of the spec (section 3): seven boolean switches. -/
structure RuleSet where
  removeGps : Bool
  removeTimestamps : Bool
  removeCamera : Bool
  removeXmp : Bool
  removeIptc : Bool
  keepIccProfile : Bool
  keepOrientation : Bool
deriving DecidableEq

/-- The TagDecision variants of the spec (section 3). -/
inductive TagDecision where
  | AlwaysKeep : TagDecision
  | RemoveByRule : String → TagDecision
  | RemoveByDefault : TagDecision
deriving DecidableEq

/-- Modelled from the spec, section 4.3: the Tag Filter decision order,
    first match wins. Used only to compare against the code's filter. -/
def tagDecisionSpec (r : RuleSet) (tag : String) : TagDecision :=
  if tag ∈ ["XResolution", "YResolution", "ResolutionUnit"] ∨
      (r.keepOrientation ∧ tag = "Orientation") ∨
      (r.keepIccProfile ∧ tag = "ICCProfile") then TagDecision.AlwaysKeep
  else if r.removeGps ∧ strStartsWith tag "GPS" then TagDecision.RemoveByRule "location"
  else if r.removeTimestamps ∧ tag ∈ ["DateTime", "DateTimeOriginal", "CreateDate"] then
    TagDecision.RemoveByRule "timestamp"
  else if r.removeCamera ∧ tag ∈ ["Make", "Model", "LensModel", "LensMake"] then
    TagDecision.RemoveByRule "device"
  else if r.removeXmp ∧ containsSub tag "XMP" then TagDecision.RemoveByRule "xmp"
  else if r.removeIptc ∧ containsSub tag "IPTC" then TagDecision.RemoveByRule "iptc"
  else TagDecision.RemoveByDefault

/-- The rules dict holding exactly the seven flags of a RuleSet, in the
    key order of DEFAULT_RULES. -/
def dictOfRuleSet (r : RuleSet) : List (String × Bool) :=
  [("remove_gps", r.removeGps), ("remove_timestamps", r.removeTimestamps),
   ("remove_camera", r.removeCamera), ("remove_xmp", r.removeXmp),
   ("remove_iptc", r.removeIptc), ("keep_icc", r.keepIccProfile),
   ("keep_orientation", r.keepOrientation)]

/-- The loop of extract_image_metadata: each item of the EXIF stream either
    yields a (resolved tag name, stringified value) pair or raises; on a
    raise the accumulated dict is returned (the except branch logs, flag
    true) together with whether a failure was logged. -/
def exifItemsRead (acc : List (String × String)) :
    List (Except String (String × String)) → List (String × String) × Bool
  | [] => (acc, false)
  | Except.ok (t, v) :: rest => exifItemsRead (dictSet acc t v) rest
  | Except.error _ :: _ => (acc, true)

/-- extract_image_metadata from src/metadata_cleaner.py: metadata starts
    empty; Image.open/getexif may raise before any item is read
    (oracle error); otherwise the item stream is folded into the dict.
    The second component records whether the except branch logged. -/
def extract_image_metadata
    (openRes : Except String (List (Except String (String × String)))) :
    List (String × String) × Bool :=
  match openRes with
  | Except.error _ => ([], true)
  | Except.ok items => exifItemsRead [] items

/-- extract_pdf_metadata from src/metadata_cleaner.py: on success the
    stringified docinfo dict, on any raise an empty dict plus a log. -/
def extract_pdf_metadata (openRes : Except String (List (String × String))) :
    List (String × String) × Bool :=
  match openRes with
  | Except.ok m => (m, false)
  | Except.error _ => ([], true)

/-- extract_media_metadata from src/metadata_cleaner.py: the exiftool
    run / JSON parse either yields the stringified first record or raises,
    in which case an empty dict is returned plus a log. -/
def extract_media_metadata (runRes : Except String (List (String × String))) :
    List (String × String) × Bool :=
  match runRes with
  | Except.ok m => (m, false)
  | Except.error _ => ([], true)

/-- Oracles for the three extraction back ends. -/
structure ExtractEnv where
  imgItems : Except String (List (Except String (String × String)))
  pdfMeta : Except String (List (String × String))
  mediaMeta : Except String (List (String × String))

/-- extract_metadata from src/metadata_cleaner.py: dispatch on file_type;
    anything unrecognized yields an empty dict without logging. -/
def extract_metadata (env : ExtractEnv) (file_type : String) :
    List (String × String) × Bool :=
  if file_type = "image" then extract_image_metadata env.imgItems
  else if file_type = "pdf" then extract_pdf_metadata env.pdfMeta
  else if file_type = "media" then extract_media_metadata env.mediaMeta
  else ([], false)

/-- Observable filesystem effects of a clean invocation: an (attempted)
    write of a destination file, or the final dst.replace(src). -/
inductive FsEffect where
  | write : List Char → FsEffect
  | replace : List Char → List Char → FsEffect
deriving DecidableEq

/-- clean_image_lossless from src/metadata_cleaner.py: open/getexif may
    raise (caught, message str(e)); otherwise the surviving tags are
    computed and the save to dst is attempted, which may itself raise
    (caught as well). -/
def clean_image_lossless (openRes : Except String (List (String × String)))
    (saveRes : Except String Unit) (rules : List (String × Bool))
    (dst : List Char) : (Bool × String) × List FsEffect :=
  match openRes with
  | Except.error e => ((false, e), [])
  | Except.ok exif =>
    let _kept := cleanImageLosslessTags rules exif
    match saveRes with
    | Except.error e => ((false, e), [FsEffect.write dst])
    | Except.ok _ => ((true, "Lossless image metadata removed"), [FsEffect.write dst])

/-- clean_pdf_lossless from src/metadata_cleaner.py: rules are not
    consulted; pikepdf.open may raise, then docinfo.clear + save may
    raise; every raise is caught and reported as (False, str(e)). -/
def clean_pdf_lossless (openRes saveRes : Except String Unit)
    (_rules : List (String × Bool)) (dst : List Char) :
    (Bool × String) × List FsEffect :=
  match openRes with
  | Except.error e => ((false, e), [])
  | Except.ok _ =>
    match saveRes with
    | Except.error e => ((false, e), [FsEffect.write dst])
    | Except.ok _ => ((true, "Lossless PDF metadata removed"), [FsEffect.write dst])

/-- clean_media_lossless from src/metadata_cleaner.py: the exiftool run
    either raises (caught) or yields (returncode, stderr); returncode 0 is
    success, otherwise stderr (or "ExifTool error" when stderr is empty)
    is the message. -/
def clean_media_lossless (runRes : Except String (Int × String))
    (_rules : List (String × Bool)) (dst : List Char) :
    (Bool × String) × List FsEffect :=
  match runRes with
  | Except.error e => ((false, e), [])
  | Except.ok (rc, stderr) =>
    if rc = 0 then ((true, "Lossless media metadata removed"), [FsEffect.write dst])
    else ((false, if stderr = "" then "ExifTool error" else stderr), [FsEffect.write dst])

/-- clean_image_full from src/metadata_cleaner.py: rules ignored, pixel
    data re-encoded with no tags; any raise is caught. -/
def clean_image_full (opRes : Except String Unit) (dst : List Char) :
    (Bool × String) × List FsEffect :=
  match opRes with
  | Except.error e => ((false, e), [])
  | Except.ok _ => ((true, "Image metadata removed"), [FsEffect.write dst])

/-- clean_pdf_full from src/metadata_cleaner.py: same body as the lossless
    variant, different success message. -/
def clean_pdf_full (openRes saveRes : Except String Unit)
    (_rules : List (String × Bool)) (dst : List Char) :
    (Bool × String) × List FsEffect :=
  match openRes with
  | Except.error e => ((false, e), [])
  | Except.ok _ =>
    match saveRes with
    | Except.error e => ((false, e), [FsEffect.write dst])
    | Except.ok _ => ((true, "PDF metadata removed"), [FsEffect.write dst])

/-- clean_media_full from src/metadata_cleaner.py. -/
def clean_media_full (runRes : Except String (Int × String)) (dst : List Char) :
    (Bool × String) × List FsEffect :=
  match runRes with
  | Except.error e => ((false, e), [])
  | Except.ok (rc, stderr) =>
    if rc = 0 then ((true, "Media metadata removed"), [FsEffect.write dst])
    else ((false, if stderr = "" then "ExifTool error" else stderr), [FsEffect.write dst])

/-- Oracles for one clean_file invocation: outcomes of src.exists(), of
    each per-format back end, and of the final dst.replace(src). -/
structure Env where
  srcExists : Bool
  imgOpen : Except String (List (String × String))
  imgSave : Except String Unit
  pdfLlOpen : Except String Unit
  pdfLlSave : Except String Unit
  pdfFullOpen : Except String Unit
  pdfFullSave : Except String Unit
  mediaLl : Except String (Int × String)
  mediaFull : Except String (Int × String)
  imgFull : Except String Unit
  replaceRes : Except String Unit

/-- The destination path computed at lines 248-253 of clean_file: in
    overwrite mode src.with_suffix(src.suffix + temp suffix), otherwise
    src.with_name(src.stem + cleaned suffix + src.suffix). -/
def dstName (src : List Char) (overwrite lossless : Bool) : List Char :=
  if overwrite then
    with_suffixName src ((splitExt src).2 ++
      (if lossless then ".tmp_clean_lossless".data else ".tmp_clean".data))
  else
    (splitExt src).1 ++
      (if lossless then "_cleaned_lossless".data else "_cleaned".data) ++ (splitExt src).2

/-- The per-format dispatch of clean_file (lines 255-274): none models the
    two early unsupported-type returns. -/
def dispatchClean (env : Env) (lossless : Bool) (file_type : String)
    (rules : List (String × Bool)) (dst : List Char) :
    Option ((Bool × String) × List FsEffect) :=
  if lossless then
    if file_type = "image" then some (clean_image_lossless env.imgOpen env.imgSave rules dst)
    else if file_type = "pdf" then some (clean_pdf_lossless env.pdfLlOpen env.pdfLlSave rules dst)
    else if file_type = "media" then some (clean_media_lossless env.mediaLl rules dst)
    else none
  else
    if file_type = "image" then some (clean_image_full env.imgFull dst)
    else if file_type = "pdf" then some (clean_pdf_full env.pdfFullOpen env.pdfFullSave rules dst)
    else if file_type = "media" then some (clean_media_full env.mediaFull dst)
    else none

/-- Result of a clean_file invocation: its filesystem effects, and either
    the returned (success, message, outputPath) tuple or an exception that
    escaped clean_file uncaught. -/
structure CleanOutcome where
  effects : List FsEffect
  result : Except String (Bool × String × List Char)
deriving DecidableEq

/-- clean_file from src/metadata_cleaner.py, lines 238-286. -/
def clean_file (env : Env) (path : List Char) (overwrite lossless : Bool)
    (rules : Option (List (String × Bool))) : CleanOutcome :=
  let src := path
  if env.srcExists = false then
    ⟨[], Except.ok (false, "File not found", path)⟩
  else
    let rules1 := normalize_rules rules
    let file_type := get_file_type src
    let dst := dstName src overwrite lossless
    match dispatchClean env lossless file_type rules1 dst with
    | none => ⟨[], Except.ok (false, "Unsupported file type", src)⟩
    | some ((ok, msg), effs) =>
      if ok && overwrite then
        match env.replaceRes with
        | Except.ok _ => ⟨effs ++ [FsEffect.replace dst src], Except.ok (true, msg, src)⟩
        | Except.error e => ⟨effs, Except.error e⟩
      else ⟨effs, Except.ok (ok, msg, dst)⟩

/-- compare_metadata from src/metadata_cleaner.py: keep every entry of
    before whose key is missing from after or mapped to a different
    value. -/
def compare_metadata (before after : List (String × String)) :
    List (String × String) :=
  before.filter (fun p =>
    match dictGet after p.1 with
    | none => true
    | some v => v != p.2)

/-- An environment in which every oracle succeeds. -/
def envAllOk : Env :=
  ⟨true, Except.ok [], Except.ok (), Except.ok (), Except.ok (), Except.ok (),
   Except.ok (), Except.ok (0, ""), Except.ok (0, ""), Except.ok (), Except.ok ()⟩

/-- An environment in which the source file does not exist. -/
def envNoFile : Env :=
  ⟨false, Except.ok [], Except.ok (), Except.ok (), Except.ok (), Except.ok (),
   Except.ok (), Except.ok (0, ""), Except.ok (0, ""), Except.ok (), Except.ok ()⟩

/-- An environment in which everything succeeds except the final
    dst.replace(src), which raises. -/
def envReplaceFail : Env :=
  ⟨true, Except.ok [], Except.ok (), Except.ok (), Except.ok (), Except.ok (),
   Except.ok (), Except.ok (0, ""), Except.ok (0, ""), Except.ok (),
   Except.error "Permission denied"⟩

/- ------------------------------------------------------------------ -/
/- Lemmas and claim theorems                                          -/
/- ------------------------------------------------------------------ -/

lemma classifyExt_image (e : String) (h : e ∈ IMAGE_EXTS) : classifyExt e = "image" := by
  simp [classifyExt, h]

lemma classifyExt_media (e : String) (h : e ∈ MEDIA_EXTS) : classifyExt e = "media" := by
  have himg : e ∉ IMAGE_EXTS := by fin_cases h <;> decide
  simp [classifyExt, himg, h]

lemma classifyExt_pdf (e : String) (h : e = ".pdf") : classifyExt e = "pdf" := by
  subst h; decide

lemma classifyExt_other (e : String) (h1 : e ∉ IMAGE_EXTS) (h2 : e ∉ MEDIA_EXTS)
    (h3 : e ≠ ".pdf") : classifyExt e = "other" := by
  simp [classifyExt, h1, h2, h3]

lemma classifyExt_total (e : String) : classifyExt e ∈ ["image", "media", "pdf", "other"] := by
  unfold classifyExt
  split_ifs <;> simp

/-- Claim C4: the type classifier is a pure, total, deterministic function
    of the lowercased file extension: image/media/pdf extensions map to
    their class, everything else to "other", and for every file name the
    result is exactly one of the four classes. -/
theorem get_file_type_classification (s : List Char) :
    (extOfName s ∈ IMAGE_EXTS → get_file_type s = "image") ∧
    (extOfName s ∈ MEDIA_EXTS → get_file_type s = "media") ∧
    (extOfName s = ".pdf" → get_file_type s = "pdf") ∧
    (extOfName s ∉ IMAGE_EXTS → extOfName s ∉ MEDIA_EXTS → extOfName s ≠ ".pdf" →
      get_file_type s = "other") ∧
    get_file_type s ∈ ["image", "media", "pdf", "other"] :=
  ⟨classifyExt_image (extOfName s), classifyExt_media (extOfName s),
   classifyExt_pdf (extOfName s), classifyExt_other (extOfName s),
   classifyExt_total (extOfName s)⟩

/-- Witness for C4 at concrete file names. -/
theorem get_file_type_classification_witness :
    get_file_type ("photo.JPG".data) = "image" ∧ get_file_type ("a.mp4".data) = "media" ∧
    get_file_type ("doc.pdf".data) = "pdf" ∧ get_file_type ("notes.txt".data) = "other" :=
  ⟨(get_file_type_classification ("photo.JPG".data)).1 (by decide),
   (get_file_type_classification ("a.mp4".data)).2.1 (by decide),
   (get_file_type_classification ("doc.pdf".data)).2.2.1 (by decide),
   (get_file_type_classification ("notes.txt".data)).2.2.2.1 (by decide) (by decide) (by decide)⟩

/-- Claim C10: when the source path does not exist, clean_file returns
    (false, "File not found", path) with the input path string as output
    path, regardless of mode flags, rules and every other oracle, and
    performs no filesystem effect. -/
theorem clean_file_not_found (env : Env) (path : List Char) (ow ll : Bool)
    (rules : Option (List (String × Bool))) (h : env.srcExists = false) :
    clean_file env path ow ll rules = ⟨[], Except.ok (false, "File not found", path)⟩ := by
  simp [clean_file, h]

/-- Witness for C10: a concrete missing file. -/
theorem clean_file_not_found_witness :
    clean_file envNoFile ("photo.jpg".data) true true (some [("remove_gps", false)]) =
      ⟨[], Except.ok (false, "File not found", "photo.jpg".data)⟩ :=
  clean_file_not_found envNoFile ("photo.jpg".data) true true (some [("remove_gps", false)]) rfl

/-- Claim C7: for an existing path classified as unsupported, clean_file in
    either fidelity mode returns success false with message exactly
    "Unsupported file type", performs no filesystem effect (so no output
    file exists and the source is untouched), and reports the source path. -/
theorem clean_file_unsupported (env : Env) (path : List Char) (ow ll : Bool)
    (rules : Option (List (String × Bool))) (hex : env.srcExists = true)
    (hft : get_file_type path = "other") :
    clean_file env path ow ll rules = ⟨[], Except.ok (false, "Unsupported file type", path)⟩ := by
  have hdisp : ∀ r d, dispatchClean env ll (get_file_type path) r d = none := by
    intro r d
    rw [hft]
    cases ll <;> simp [dispatchClean]
  simp [clean_file, hex, hdisp]

/-- Witness for C7: a concrete unsupported file. -/
theorem clean_file_unsupported_witness :
    clean_file envAllOk ("notes.txt".data) false true none =
      ⟨[], Except.ok (false, "Unsupported file type", "notes.txt".data)⟩ :=
  clean_file_unsupported envAllOk ("notes.txt".data) false true none rfl (by decide)

/-- Claim C2 (code bug): when the per-format clean succeeds in overwrite
    mode but dst.replace(src) raises, the exception escapes clean_file
    uncaught instead of being returned as a result tuple: the replacement
    step at line 277 is outside every try/except block. -/
theorem clean_file_replace_failure_escapes :
    (clean_file envReplaceFail ("photo.jpg".data) true true (some [])).result =
      Except.error "Permission denied" := rfl

/-- Counterexample for C9: the full-mode and lossless-mode PDF cleans are
    not identical: on the same succeeding inputs their result messages
    differ ("PDF metadata removed" vs "Lossless PDF metadata removed"). -/
theorem clean_pdf_modes_differ :
    clean_pdf_full (Except.ok ()) (Except.ok ()) [] [] ≠
      clean_pdf_lossless (Except.ok ()) (Except.ok ()) [] [] := by decide

/-- Claim C9 (amended): the full-mode PDF clean agrees with the lossless
    one in success/failure outcome and filesystem effects for every input
    and every pair of rule sets (rules are ignored by both), and the full
    results coincide on every failing input; on success the behaviors
    coincide but the messages differ as stated. -/
theorem clean_pdf_full_refines_lossless (r1 r2 : List (String × Bool)) (dst : List Char) :
    (∀ (o s : Except String Unit),
      (clean_pdf_full o s r1 dst).1.1 = (clean_pdf_lossless o s r2 dst).1.1 ∧
      (clean_pdf_full o s r1 dst).2 = (clean_pdf_lossless o s r2 dst).2) ∧
    (∀ (e : String) (s : Except String Unit),
      clean_pdf_full (Except.error e) s r1 dst = clean_pdf_lossless (Except.error e) s r2 dst) ∧
    (∀ e : String, clean_pdf_full (Except.ok ()) (Except.error e) r1 dst =
      clean_pdf_lossless (Except.ok ()) (Except.error e) r2 dst) ∧
    clean_pdf_full (Except.ok ()) (Except.ok ()) r1 dst =
      ((true, "PDF metadata removed"), [FsEffect.write dst]) ∧
    clean_pdf_lossless (Except.ok ()) (Except.ok ()) r2 dst =
      ((true, "Lossless PDF metadata removed"), [FsEffect.write dst]) := by
  refine ⟨?_, ?_, ?_, rfl, rfl⟩
  · intro o s
    cases o <;> cases s <;> simp [clean_pdf_full, clean_pdf_lossless]
  · intro e s
    rfl
  · intro e
    rfl

/-- Counterexample for C3: an image-metadata extraction that fails midway
    through the EXIF item stream records the failure but returns the
    partially populated map accumulated so far, not an empty one. -/
theorem extract_image_partial_on_failure :
    extract_image_metadata
        (Except.ok [Except.ok ("Make", "Acme"), Except.error "truncated EXIF"]) =
      ([("Make", "Acme")], true) ∧
    ([("Make", "Acme")] : List (String × String)) ≠ [] := ⟨rfl, by decide⟩

/-- Claim C3 (amended): every extraction failure is recorded to the sink
    and never aborts the caller; PDF and media extraction return an empty
    map on failure, while image extraction returns exactly the tags
    accumulated before the failing item, which may be non-empty. -/
theorem extraction_failure_policy :
    (∀ e : String, extract_image_metadata (Except.error e) = ([], true)) ∧
    (∀ (pre : List (String × String)) (e : String)
        (post : List (Except String (String × String))),
      extract_image_metadata (Except.ok (pre.map Except.ok ++ Except.error e :: post)) =
        (pre.foldl (fun acc p => dictSet acc p.1 p.2) [], true)) ∧
    (∀ e : String, extract_pdf_metadata (Except.error e) = ([], true)) ∧
    (∀ e : String, extract_media_metadata (Except.error e) = ([], true)) ∧
    (∀ env : ExtractEnv, extract_metadata env "other" = ([], false)) := by
  have key : ∀ (pre : List (String × String)) (acc : List (String × String))
      (e : String) (post : List (Except String (String × String))),
      exifItemsRead acc (pre.map Except.ok ++ Except.error e :: post) =
        (pre.foldl (fun a p => dictSet a p.1 p.2) acc, true) := by
    intro pre
    induction pre with
    | nil => intro acc e post; rfl
    | cons p rest ih => intro acc e post; simpa [exifItemsRead] using ih (dictSet acc p.1 p.2) e post
  refine ⟨fun e => rfl, ?_, fun e => rfl, fun e => rfl, fun env => rfl⟩
  intro pre e post
  simpa [extract_image_metadata] using key pre [] e post

lemma norm_dictOfRuleSet (r : RuleSet) :
    normalize_rules (some (dictOfRuleSet r)) = dictOfRuleSet r := rfl

lemma keep_always_mem (r : RuleSet) (tag : String) :
    tag ∈ keep_always (dictOfRuleSet r) ↔
      tag ∈ ["XResolution", "YResolution", "ResolutionUnit"] ∨
      (r.keepOrientation = true ∧ tag = "Orientation") ∨
      (r.keepIccProfile = true ∧ tag = "ICCProfile") := by
  have h1 : dictGetD (dictOfRuleSet r) "keep_orientation" true = r.keepOrientation := rfl
  have h2 : dictGetD (dictOfRuleSet r) "keep_icc" true = r.keepIccProfile := rfl
  unfold keep_always
  rw [h1, h2]
  cases r.keepOrientation <;> cases r.keepIccProfile <;> simp <;> tauto

lemma losslessDelete_iff (r : RuleSet) (tag : String) :
    losslessDelete (dictOfRuleSet r) tag = false ↔
      tagDecisionSpec r tag = TagDecision.AlwaysKeep := by
  have hg : dictGetD (dictOfRuleSet r) "remove_gps" true = r.removeGps := rfl
  have ht : dictGetD (dictOfRuleSet r) "remove_timestamps" true = r.removeTimestamps := rfl
  have hc : dictGetD (dictOfRuleSet r) "remove_camera" true = r.removeCamera := rfl
  have hx : dictGetD (dictOfRuleSet r) "remove_xmp" true = r.removeXmp := rfl
  have hi : dictGetD (dictOfRuleSet r) "remove_iptc" true = r.removeIptc := rfl
  unfold losslessDelete tagDecisionSpec
  rw [hg, ht, hc, hx, hi]
  by_cases hk : tag ∈ keep_always (dictOfRuleSet r)
  · have hk2 := (keep_always_mem r tag).mp hk
    have hspec : (tag ∈ ["XResolution", "YResolution", "ResolutionUnit"] ∨
        (r.keepOrientation = true ∧ tag = "Orientation") ∨
        (r.keepIccProfile = true ∧ tag = "ICCProfile")) := by
      simpa using hk2
    simp only [if_pos hk, if_pos hspec]
  · have hk2 : ¬ (tag ∈ ["XResolution", "YResolution", "ResolutionUnit"] ∨
        (r.keepOrientation ∧ tag = "Orientation") ∨
        (r.keepIccProfile ∧ tag = "ICCProfile")) := by
      intro hcon
      exact hk ((keep_always_mem r tag).mpr (by simpa using hcon))
    simp only [if_neg hk, if_neg hk2]
    constructor
    · intro hfalse
      exfalso
      revert hfalse
      split_ifs <;> simp
    · intro hspec
      exfalso
      revert hspec
      split_ifs <;> simp

/-- Claim C1: the lossless image clean decides each tag by the spec's
    first-match order, keeping a tag exactly when the Tag Filter decision
    is AlwaysKeep, for every rule set and every tag dictionary; and on the
    scenario input with all-default rules the output tag dictionary is
    exactly the Orientation entry. -/
theorem clean_image_lossless_tag_policy :
    (∀ (r : RuleSet) (exif : List (String × String)),
      cleanImageLosslessTags (dictOfRuleSet r) exif =
        exif.filter (fun p => decide (tagDecisionSpec r p.1 = TagDecision.AlwaysKeep))) ∧
    cleanImageLosslessTags DEFAULT_RULES
      [("GPSLatitude", "12.3"), ("Make", "Acme"), ("Orientation", "1"),
       ("DateTimeOriginal", "2020:01:01")] = [("Orientation", "1")] := by
  constructor
  · intro r exif
    unfold cleanImageLosslessTags
    rw [norm_dictOfRuleSet]
    apply List.filter_congr
    intro p hp
    cases hdel : losslessDelete (dictOfRuleSet r) p.1 with
    | false =>
      have := (losslessDelete_iff r p.1).mp hdel
      simp [this]
    | true =>
      have : ¬ tagDecisionSpec r p.1 = TagDecision.AlwaysKeep := by
        intro hcon
        have := (losslessDelete_iff r p.1).mpr hcon
        rw [this] at hdel
        exact Bool.false_ne_true hdel
      simp [this]
  · decide

lemma dictGet_nil {α : Type} (k : String) : dictGet ([] : List (String × α)) k = none := rfl

lemma dictGet_cons {α : Type} (p : String × α) (d : List (String × α)) (k : String) :
    dictGet (p :: d) k = if p.1 = k then some p.2 else dictGet d k := by
  by_cases h : p.1 = k
  · have hb : (p.1 == k) = true := by simpa using h
    simp [dictGet, List.find?_cons, hb, h]
  · have hb : (p.1 == k) = false := by simpa using h
    simp [dictGet, List.find?_cons, hb, h]

lemma dictGet_eq_none_iff {α : Type} (d : List (String × α)) (k : String) :
    dictGet d k = none ↔ ∀ p ∈ d, p.1 ≠ k := by
  simp [dictGet, List.find?_eq_none]

lemma dictGet_filter_none {α : Type} (d : List (String × α)) (f : String × α → Bool)
    (k : String) (h : dictGet d k = none) : dictGet (d.filter f) k = none := by
  rw [dictGet_eq_none_iff] at h ⊢
  intro p hp
  exact h p (List.mem_of_mem_filter hp)

lemma nodup_keys_cons {α : Type} (p : String × α) (rest : List (String × α))
    (hnd : ((p :: rest).map Prod.fst).Nodup) :
    p.1 ∉ rest.map Prod.fst ∧ (rest.map Prod.fst).Nodup := by
  rw [List.map_cons, List.nodup_cons] at hnd
  exact hnd

lemma dictGet_of_mem_nodup {α : Type} (d : List (String × α)) (k : String) (v : α)
    (hnd : (d.map Prod.fst).Nodup) (hmem : (k, v) ∈ d) : dictGet d k = some v := by
  induction d with
  | nil => cases hmem
  | cons p rest ih =>
    rcases List.mem_cons.mp hmem with hhead | htail
    · rw [← hhead, dictGet_cons]
      simp
    · have hk : p.1 ≠ k := by
        intro hcon
        have : p.1 ∈ rest.map Prod.fst := by
          rw [hcon]
          have : k = Prod.fst (k, v) := rfl
          rw [this]
          exact List.mem_map_of_mem Prod.fst htail
        exact (nodup_keys_cons p rest hnd).1 this
      rw [dictGet_cons, if_neg hk]
      exact ih (nodup_keys_cons p rest hnd).2 htail

lemma dictGet_filter {α : Type} (d : List (String × α)) (f : String × α → Bool)
    (k : String) (hnd : (d.map Prod.fst).Nodup) :
    dictGet (d.filter f) k = match dictGet d k with
      | none => none
      | some v => if f (k, v) then some v else none := by
  induction d with
  | nil => rfl
  | cons p rest ih =>
    have hnd2 := nodup_keys_cons p rest hnd
    by_cases hk : p.1 = k
    · have hp : p = (k, p.2) := by rw [← hk]
      have hnone : dictGet rest k = none := by
        rw [dictGet_eq_none_iff]
        intro q hq hqk
        apply hnd2.1
        rw [hk, ← hqk]
        exact List.mem_map_of_mem Prod.fst hq
      cases hf : f p with
      | true =>
        rw [List.filter_cons_of_pos hf]
        rw [hp] at hf ⊢
        simp [dictGet_cons, hf]
      | false =>
        rw [List.filter_cons_of_neg (by simp [hf])]
        rw [dictGet_filter_none rest f k hnone]
        rw [hp] at hf ⊢
        simp [dictGet_cons, hf]
    · cases hf : f p with
      | true =>
        rw [List.filter_cons_of_pos hf]
        rw [dictGet_cons, if_neg hk, dictGet_cons, if_neg hk]
        exact ih hnd2.2
      | false =>
        rw [List.filter_cons_of_neg (by simp [hf])]
        rw [dictGet_cons, if_neg hk]
        exact ih hnd2.2

/-- Claim C5: compare_metadata returns exactly the entries of before whose
    key is absent from after or mapped to a different value, with the
    before value; keys only in after never appear; it is empty when before
    equals after and is all of before against an empty after map. -/
theorem compare_metadata_spec (before after : List (String × String))
    (hnd : (before.map Prod.fst).Nodup) :
    (∀ k : String, dictGet (compare_metadata before after) k =
      match dictGet before k with
      | none => none
      | some v => if dictGet after k = some v then none else some v) ∧
    compare_metadata before before = [] ∧
    compare_metadata before [] = before := by
  refine ⟨?_, ?_, ?_⟩
  · intro k
    unfold compare_metadata
    rw [dictGet_filter before _ k hnd]
    cases hb : dictGet before k with
    | none => rfl
    | some v =>
      cases ha : dictGet after k with
      | none => simp [ha]
      | some w =>
        by_cases hw : w = v
        · simp [ha, hw]
        · simp [ha, hw, Ne.symm hw]
  · unfold compare_metadata
    rw [List.filter_eq_nil_iff]
    intro p hp
    rw [dictGet_of_mem_nodup before p.1 p.2 hnd hp]
    simp
  · unfold compare_metadata
    rw [List.filter_eq_self]
    intro p hp
    rfl

/-- Witness for C5 on concrete maps. -/
theorem compare_metadata_spec_witness :
    compare_metadata [("Make", "Acme"), ("Orientation", "1")]
        [("Make", "Acme"), ("Orientation", "1")] = [] ∧
    compare_metadata [("Make", "Acme"), ("Orientation", "1")] [] =
      [("Make", "Acme"), ("Orientation", "1")] :=
  ⟨(compare_metadata_spec [("Make", "Acme"), ("Orientation", "1")]
      [("Make", "Acme"), ("Orientation", "1")] (by decide)).2.1,
   (compare_metadata_spec [("Make", "Acme"), ("Orientation", "1")] []
      (by decide)).2.2⟩

lemma dictGet_append {α : Type} (d1 d2 : List (String × α)) (k : String) :
    dictGet (d1 ++ d2) k = (dictGet d1 k).or (dictGet d2 k) := by
  unfold dictGet
  rw [List.find?_append]
  cases h : d1.find? (fun p => p.1 == k) <;> simp [Option.or]

lemma dictGet_mapSet {α : Type} (d : List (String × α)) (k k1 : String) (v : α) :
    dictGet (d.map (fun p => if p.1 = k then (k, v) else p)) k1 =
      if k1 = k then (dictGet d k).map (fun _ => v) else dictGet d k1 := by
  induction d with
  | nil => by_cases h : k1 = k <;> simp [dictGet, h]
  | cons p rest ih =>
    rw [List.map_cons]
    by_cases hpk : p.1 = k
    · rw [if_pos hpk]
      by_cases h1 : k1 = k
      · subst h1
        simp [dictGet_cons, hpk, ih]
      · have hk1 : k ≠ k1 := fun hcon => h1 hcon.symm
        have hpk1 : ¬ (p.1 = k1) := by rw [hpk]; exact hk1
        simp [dictGet_cons, ih, h1, hk1, hpk1]
    · rw [if_neg hpk]
      by_cases h1 : k1 = k
      · subst h1
        simp [dictGet_cons, ih, hpk]
      · by_cases h2 : p.1 = k1 <;> simp [dictGet_cons, ih, h1, h2]

lemma dictGet_dictSet {α : Type} (d : List (String × α)) (k : String) (v : α) (k1 : String) :
    dictGet (dictSet d k v) k1 = if k1 = k then some v else dictGet d k1 := by
  unfold dictSet
  by_cases hany : d.any (fun p => p.1 == k)
  · rw [if_pos hany, dictGet_mapSet]
    by_cases h1 : k1 = k
    · rw [if_pos h1, if_pos h1]
      have : (d.find? (fun p => p.1 == k)).isSome := by
        rw [List.find?_isSome]
        simpa [List.any_eq_true] using hany
      cases hfind : d.find? (fun p => p.1 == k) with
      | none => rw [hfind] at this; cases this
      | some q => simp [dictGet, hfind]
    · rw [if_neg h1, if_neg h1]
  · rw [if_neg hany, dictGet_append]
    have hnone : dictGet d k = none := by
      rw [dictGet_eq_none_iff]
      intro p hp hcon
      exact hany (List.any_eq_true.mpr ⟨p, hp, by simpa using hcon⟩)
    by_cases h1 : k1 = k
    · rw [if_pos h1, h1, hnone]
      rw [dictGet_cons]
      simp
    · rw [if_neg h1]
      have hright : dictGet [(k, v)] k1 = none := by
        rw [dictGet_eq_none_iff]
        intro p hp
        simp only [List.mem_singleton] at hp
        rw [hp]
        exact fun hcon => h1 hcon.symm
      rw [hright]
      cases dictGet d k1 <;> rfl

lemma dictGet_dictUpdate {α : Type} (base upd : List (String × α)) (k : String)
    (hnd : (upd.map Prod.fst).Nodup) :
    dictGet (dictUpdate base upd) k = (dictGet upd k).or (dictGet base k) := by
  induction upd generalizing base with
  | nil =>
    show dictGet base k = (dictGet ([] : List (String × α)) k).or (dictGet base k)
    cases dictGet base k <;> rfl
  | cons p rest ih =>
    obtain ⟨k0, v0⟩ := p
    have hnd2 := nodup_keys_cons (k0, v0) rest hnd
    have hstep : dictUpdate base ((k0, v0) :: rest) = dictUpdate (dictSet base k0 v0) rest := rfl
    rw [hstep, ih _ hnd2.2, dictGet_dictSet, dictGet_cons]
    by_cases h1 : k0 = k
    · have hnone : dictGet rest k = none := by
        rw [dictGet_eq_none_iff]
        intro q hq hcon
        apply hnd2.1
        show k0 ∈ rest.map Prod.fst
        rw [h1, ← hcon]
        exact List.mem_map_of_mem Prod.fst hq
      rw [hnone, if_pos h1, if_pos h1.symm]
      rfl
    · rw [if_neg h1, if_neg (fun hcon => h1 hcon.symm)]

/-- Claim C6: normalization fills every one of the seven rule keys: with no
    caller rules the defaults (all true) are returned, and for a caller
    dict every one of the seven keys is present in the normalized dict,
    holding the caller value when supplied and true otherwise. -/
theorem normalize_rules_complete (r : List (String × Bool))
    (hnd : (r.map Prod.fst).Nodup) :
    normalize_rules none = DEFAULT_RULES ∧
    ∀ k, k ∈ DEFAULT_RULES.map Prod.fst →
      dictGet DEFAULT_RULES k = some true ∧
      dictGet (normalize_rules (some r)) k = some (dictGetD r k true) := by
  refine ⟨rfl, ?_⟩
  intro k hk
  have hdef : dictGet DEFAULT_RULES k = some true := by
    fin_cases hk <;> rfl
  refine ⟨hdef, ?_⟩
  show dictGet (dictUpdate DEFAULT_RULES r) k = some (dictGetD r k true)
  rw [dictGet_dictUpdate DEFAULT_RULES r k hnd]
  cases hr : dictGet r k with
  | none => rw [hdef]; simp [dictGetD, hr, Option.or]
  | some v => simp [dictGetD, hr, Option.or]

lemma spanProps {α : Type} (p : α → Bool) (l : List α) :
    l.takeWhile p ++ l.dropWhile p = l ∧ (∀ c ∈ l.takeWhile p, p c = true) ∧
    (∀ c cs, l.dropWhile p = c :: cs → p c = false) := by
  induction l with
  | nil =>
    refine ⟨rfl, by simp, ?_⟩
    intro c cs h
    cases h
  | cons a l ih =>
    cases ha : p a with
    | true =>
      rw [List.takeWhile_cons, List.dropWhile_cons]
      simp only [ha, if_true]
      refine ⟨by rw [List.cons_append, ih.1], ?_, ih.2.2⟩
      intro c hc
      rcases List.mem_cons.mp hc with h | h
      · rw [h]; exact ha
      · exact ih.2.1 c h
    | false =>
      rw [List.takeWhile_cons, List.dropWhile_cons]
      simp only [ha, if_false]
      refine ⟨rfl, by simp, ?_⟩
      intro c cs h
      injection h with h1 h2
      rw [← h1]
      exact ha

lemma takeWhile_append_cons {α : Type} (p : α → Bool) (l1 : List α) (c : α) (l2 : List α)
    (h1 : ∀ x ∈ l1, p x = true) (hc : p c = false) :
    (l1 ++ c :: l2).takeWhile p = l1 ∧ (l1 ++ c :: l2).dropWhile p = c :: l2 := by
  induction l1 with
  | nil =>
    rw [List.nil_append, List.takeWhile_cons, List.dropWhile_cons]
    simp [hc]
  | cons a l ih =>
    have hpa : p a = true := h1 a (List.mem_cons_self a l)
    have ih2 := ih (fun x hx => h1 x (List.mem_cons_of_mem a hx))
    rw [List.cons_append, List.takeWhile_cons, List.dropWhile_cons]
    simp [hpa, ih2.1, ih2.2]

lemma splitExt_of_shape (a rest : List Char) (ha : a ≠ []) (hr : rest ≠ [])
    (hd : '.' ∉ rest) : splitExt (a ++ '.' :: rest) = (a, '.' :: rest) := by
  have hrev : (a ++ '.' :: rest).reverse = rest.reverse ++ '.' :: a.reverse := by
    rw [List.reverse_append, List.reverse_cons, List.append_assoc]
    rfl
  have htd := takeWhile_append_cons (fun c => c != '.') rest.reverse '.' a.reverse
    (by
      intro x hx
      have hxm : x ∈ rest := List.mem_reverse.mp hx
      have : x ≠ '.' := fun hcon => hd (hcon ▸ hxm)
      simpa using this)
    (by decide)
  unfold splitExt
  rw [hrev, List.span_eq_take_drop, htd.1, htd.2]
  have hstem : ¬ (a.reverse = []) := by simpa using ha
  have hrest : ¬ (rest.reverse = []) := by simpa using hr
  simp [hstem, hrest]

lemma splitExt_spec (s : List Char) :
    (splitExt s).1 ++ (splitExt s).2 = s ∧
    ((splitExt s).2 = [] ∨ ∃ rest, (splitExt s).2 = '.' :: rest ∧ rest ≠ [] ∧
      '.' ∉ rest ∧ (splitExt s).1 ≠ []) := by
  have hsp := spanProps (fun c => c != '.') s.reverse
  unfold splitExt
  rw [List.span_eq_take_drop]
  generalize hT : s.reverse.takeWhile (fun c => c != '.') = t
  rw [hT] at hsp
  split
  · simp
  · rename_i x revRest dot revStem heq
    injection heq with hT2 hD
    subst hT2
    rw [hD] at hsp
    have hdotEq : dot = '.' := by simpa using hsp.2.2 dot revStem rfl
    have h3 : s = (t ++ dot :: revStem).reverse := by
      rw [hsp.1, List.reverse_reverse]
    have hsum : revStem.reverse ++ '.' :: t.reverse = s := by
      rw [h3, hdotEq]
      simp
    have hnodot : '.' ∉ t.reverse := by
      intro hcon
      have := hsp.2.1 '.' (List.mem_reverse.mp hcon)
      simp at this
    by_cases h1 : revStem = []
    · simp [h1]
    · by_cases h2 : t = []
      · simp [h1, h2]
      · rw [if_neg h1, if_neg h2]
        refine ⟨hsum, Or.inr ⟨t.reverse, rfl, ?_, hnodot, ?_⟩⟩
        · simpa using h2
        · simpa using h1

lemma supported_shape (s : List Char) (h : get_file_type s ≠ "other") :
    ∃ a rest, splitExt s = (a, '.' :: rest) ∧ a ≠ [] ∧ rest ≠ [] ∧ '.' ∉ rest ∧
      a ++ '.' :: rest = s := by
  rcases (splitExt_spec s).2 with h2 | ⟨rest, h2, hr, hd, ha⟩
  · exfalso
    apply h
    show classifyExt (String.mk ((splitExt s).2.map Char.toLower)) = "other"
    rw [h2]
    decide
  · refine ⟨(splitExt s).1, rest, ?_, ha, hr, hd, ?_⟩
    · rw [← h2]
    · rw [← h2]
      exact (splitExt_spec s).1

lemma append_ne_left {α : Type} (l t : List α) (ht : t ≠ []) : l ++ t ≠ l := by
  intro hcon
  have hlen := congrArg List.length hcon
  rw [List.length_append] at hlen
  have : t.length = 0 := by omega
  exact ht (List.length_eq_zero.mp this)

lemma append_mid_ne {α : Type} (a mid b : List α) (hm : mid ≠ []) :
    a ++ mid ++ b ≠ a ++ b := by
  intro hcon
  have hlen := congrArg List.length hcon
  rw [List.length_append, List.length_append, List.length_append] at hlen
  have : mid.length = 0 := by omega
  exact hm (List.length_eq_zero.mp this)

lemma clean_image_lossless_effects (o : Except String (List (String × String)))
    (sv : Except String Unit) (r : List (String × Bool)) (d : List Char) :
    (clean_image_lossless o sv r d).2 = [] ∨
      (clean_image_lossless o sv r d).2 = [FsEffect.write d] := by
  cases o <;> cases sv <;> simp [clean_image_lossless]

lemma clean_pdf_lossless_effects (o sv : Except String Unit)
    (r : List (String × Bool)) (d : List Char) :
    (clean_pdf_lossless o sv r d).2 = [] ∨
      (clean_pdf_lossless o sv r d).2 = [FsEffect.write d] := by
  cases o <;> cases sv <;> simp [clean_pdf_lossless]

lemma clean_media_lossless_effects (o : Except String (Int × String))
    (r : List (String × Bool)) (d : List Char) :
    (clean_media_lossless o r d).2 = [] ∨
      (clean_media_lossless o r d).2 = [FsEffect.write d] := by
  cases o with
  | error e => simp [clean_media_lossless]
  | ok rc =>
    obtain ⟨c, err⟩ := rc
    by_cases hc : c = 0 <;> simp [clean_media_lossless, hc]

lemma clean_image_full_effects (o : Except String Unit) (d : List Char) :
    (clean_image_full o d).2 = [] ∨ (clean_image_full o d).2 = [FsEffect.write d] := by
  cases o <;> simp [clean_image_full]

lemma clean_pdf_full_effects (o sv : Except String Unit)
    (r : List (String × Bool)) (d : List Char) :
    (clean_pdf_full o sv r d).2 = [] ∨
      (clean_pdf_full o sv r d).2 = [FsEffect.write d] := by
  cases o <;> cases sv <;> simp [clean_pdf_full]

lemma clean_media_full_effects (o : Except String (Int × String)) (d : List Char) :
    (clean_media_full o d).2 = [] ∨ (clean_media_full o d).2 = [FsEffect.write d] := by
  cases o with
  | error e => simp [clean_media_full]
  | ok rc =>
    obtain ⟨c, err⟩ := rc
    by_cases hc : c = 0 <;> simp [clean_media_full, hc]

lemma dispatch_effects (env : Env) (ll : Bool) (ft : String)
    (r : List (String × Bool)) (d : List Char) (x : (Bool × String) × List FsEffect)
    (h : dispatchClean env ll ft r d = some x) :
    x.2 = [] ∨ x.2 = [FsEffect.write d] := by
  unfold dispatchClean at h
  cases ll <;> split_ifs at h <;>
    (try injection h with h) <;>
    (try rw [← h]) <;>
    first
    | exact clean_image_lossless_effects env.imgOpen env.imgSave r d
    | exact clean_pdf_lossless_effects env.pdfLlOpen env.pdfLlSave r d
    | exact clean_media_lossless_effects env.mediaLl r d
    | exact clean_image_full_effects env.imgFull d
    | exact clean_pdf_full_effects env.pdfFullOpen env.pdfFullSave r d
    | exact clean_media_full_effects env.mediaFull d

lemma clean_file_effects_eq (env : Env) (path : List Char) (ow ll : Bool)
    (rules : Option (List (String × Bool))) (hex : env.srcExists = true)
    (x : (Bool × String) × List FsEffect)
    (hx : dispatchClean env ll (get_file_type path) (normalize_rules rules)
      (dstName path ow ll) = some x) :
    (clean_file env path ow ll rules).effects =
      if x.1.1 && ow then
        (match env.replaceRes with
         | Except.ok _ => x.2 ++ [FsEffect.replace (dstName path ow ll) path]
         | Except.error _ => x.2)
      else x.2 := by
  obtain ⟨⟨ok, msg⟩, effs⟩ := x
  simp only [clean_file, hex, Bool.true_eq_false, if_false, hx]
  cases hok : ok <;> cases ow <;>
    first
    | (simp [hok]; cases env.replaceRes <;> simp)
    | simp [hok]

lemma mem_effects_cases (effs : List FsEffect) (d p : List Char) (b : Bool)
    (rep : Except String Unit)
    (heffs : effs = [] ∨ effs = [FsEffect.write d]) (e : FsEffect)
    (he : e ∈ (if b then
        (match rep with
         | Except.ok _ => effs ++ [FsEffect.replace d p]
         | Except.error _ => effs)
      else effs)) :
    e = FsEffect.write d ∨ (b = true ∧ e = FsEffect.replace d p) := by
  cases b
  · rw [if_neg Bool.false_ne_true] at he
    rcases heffs with h0 | h0 <;> rw [h0] at he
    · simp at he
    · simp at he
      exact Or.inl he
  · rw [if_pos rfl] at he
    cases rep with
    | ok u =>
      rcases List.mem_append.mp he with h1 | h1
      · rcases heffs with h0 | h0 <;> rw [h0] at h1
        · simp at h1
        · simp at h1
          exact Or.inl h1
      · simp at h1
        exact Or.inr ⟨rfl, h1⟩
    | error er =>
      rcases heffs with h0 | h0 <;> rw [h0] at he
      · simp at he
      · simp at he
        exact Or.inl he

/-- Claim C8: output placement. In overwrite mode the cleaner writes to a
    temporary sibling path (the temp suffix distinguishing lossless from
    full mode) and replaces the source only on per-format success;
    otherwise it writes to a sibling name carrying a _cleaned or
    _cleaned_lossless marker that preserves the original extension and
    never touches the source; on per-format failure no replacement occurs
    and no effect touches the source path. -/
theorem clean_file_output_placement (env : Env) (path : List Char) (ow ll : Bool)
    (rules : Option (List (String × Bool))) (hex : env.srcExists = true)
    (hft : get_file_type path ≠ "other") :
    dstName path ow ll ≠ path ∧
    (ow = true → dstName path ow ll =
      path ++ (if ll then ".tmp_clean_lossless".data else ".tmp_clean".data)) ∧
    (ow = false →
      dstName path ow ll = (splitExt path).1 ++
        (if ll then "_cleaned_lossless".data else "_cleaned".data) ++ (splitExt path).2 ∧
      (splitExt (dstName path ow ll)).2 = (splitExt path).2) ∧
    (∀ x, dispatchClean env ll (get_file_type path) (normalize_rules rules)
        (dstName path ow ll) = some x →
      (∀ e ∈ (clean_file env path ow ll rules).effects,
        e = FsEffect.write (dstName path ow ll) ∨
        (ow = true ∧ x.1.1 = true ∧ e = FsEffect.replace (dstName path ow ll) path)) ∧
      (x.1.1 = false →
        FsEffect.replace (dstName path ow ll) path ∉ (clean_file env path ow ll rules).effects) ∧
      (ow = true → x.1.1 = true → env.replaceRes = Except.ok () →
        FsEffect.replace (dstName path ow ll) path ∈ (clean_file env path ow ll rules).effects) ∧
      (ow = false → ∀ d2 s2,
        FsEffect.replace d2 s2 ∉ (clean_file env path ow ll rules).effects)) := by
  obtain ⟨a, rest, hsp, ha, hr, hd, hsum⟩ := supported_shape path hft
  have h1a : (splitExt path).1 = a := by rw [hsp]
  have h2a : (splitExt path).2 = '.' :: rest := by rw [hsp]
  have hgen : ∀ t : List Char, (splitExt path).1 ++ ((splitExt path).2 ++ t) = path ++ t := by
    intro t
    rw [← List.append_assoc, (splitExt_spec path).1]
  have howdst : ∀ l2 : Bool, dstName path true l2 =
      path ++ (if l2 then ".tmp_clean_lossless".data else ".tmp_clean".data) := by
    intro l2
    show with_suffixName path ((splitExt path).2 ++
      (if l2 then ".tmp_clean_lossless".data else ".tmp_clean".data)) = _
    unfold with_suffixName
    exact hgen _
  have hnodst : ∀ l2 : Bool, dstName path false l2 = (splitExt path).1 ++
      (if l2 then "_cleaned_lossless".data else "_cleaned".data) ++ (splitExt path).2 :=
    fun l2 => rfl
  have hmidne : ∀ l2 : Bool,
      (if l2 then "_cleaned_lossless".data else "_cleaned".data) ≠ ([] : List Char) := by
    intro l2
    cases l2 <;> decide
  have htmpne : ∀ l2 : Bool,
      (if l2 then ".tmp_clean_lossless".data else ".tmp_clean".data) ≠ ([] : List Char) := by
    intro l2
    cases l2 <;> decide
  have hdstne : dstName path ow ll ≠ path := by
    cases ow
    · rw [hnodst ll]
      intro hcon
      exact append_mid_ne _ _ _ (hmidne ll) (hcon.trans (splitExt_spec path).1.symm)
    · rw [howdst ll]
      exact append_ne_left path _ (htmpne ll)
  have hsfx : (splitExt (dstName path false ll)).2 = (splitExt path).2 := by
    have heq2 : dstName path false ll =
        (a ++ (if ll then "_cleaned_lossless".data else "_cleaned".data)) ++ '.' :: rest := by
      rw [hnodst ll, h1a, h2a]
    have hane : a ++ (if ll then "_cleaned_lossless".data else "_cleaned".data) ≠ [] := by
      intro hcon
      exact ha (List.append_eq_nil.mp hcon).1
    rw [heq2, splitExt_of_shape _ rest hane hr hd, h2a]
  refine ⟨hdstne, ?_, ?_, ?_⟩
  · intro how
    subst how
    exact howdst ll
  · intro hnow
    subst hnow
    exact ⟨hnodst ll, hsfx⟩
  · intro x hx
    have heffs := dispatch_effects env ll (get_file_type path) (normalize_rules rules)
      (dstName path ow ll) x hx
    have heq := clean_file_effects_eq env path ow ll rules hex x hx
    refine ⟨?_, ?_, ?_, ?_⟩
    · intro e he
      rw [heq] at he
      rcases mem_effects_cases x.2 (dstName path ow ll) path (x.1.1 && ow)
          env.replaceRes heffs e he with h1 | ⟨hb, h1⟩
      · exact Or.inl h1
      · have hand := Bool.and_eq_true_iff.mp hb
        exact Or.inr ⟨hand.2, hand.1, h1⟩
    · intro hok hcon
      rw [heq, hok] at hcon
      simp only [Bool.false_and, if_neg Bool.false_ne_true] at hcon
      rcases heffs with h0 | h0 <;> rw [h0] at hcon <;> simp at hcon
    · intro how hok hrep
      rw [heq, hok, how, hrep]
      simp
    · intro how d2 s2 hcon
      rw [heq, how] at hcon
      simp only [Bool.and_false, if_neg Bool.false_ne_true] at hcon
      rcases heffs with h0 | h0 <;> rw [h0] at hcon <;> simp at hcon

/-- Witness for C8: a concrete image file in each placement mode. -/
theorem clean_file_output_placement_witness :
    dstName ("photo.jpg".data) false false ≠ "photo.jpg".data ∧
    (splitExt (dstName ("photo.jpg".data) false false)).2 = (splitExt ("photo.jpg".data)).2 ∧
    dstName ("photo.jpg".data) true true = "photo.jpg".data ++ ".tmp_clean_lossless".data :=
  ⟨(clean_file_output_placement envAllOk ("photo.jpg".data) false false none rfl
      (by decide)).1,
   ((clean_file_output_placement envAllOk ("photo.jpg".data) false false none rfl
      (by decide)).2.2.1 rfl).2,
   (clean_file_output_placement envAllOk ("photo.jpg".data) true true none rfl
      (by decide)).2.1 rfl⟩

/-- Witness for C6: a partial rule set supplying only remove_gps. -/
theorem normalize_rules_complete_witness :
    dictGet (normalize_rules (some [("remove_gps", false)])) "remove_gps" = some false ∧
    dictGet (normalize_rules (some [("remove_gps", false)])) "keep_orientation" = some true := by
  have h1 := (normalize_rules_complete [("remove_gps", false)] (by decide)).2
    "remove_gps" (by decide)
  have h2 := (normalize_rules_complete [("remove_gps", false)] (by decide)).2
    "keep_orientation" (by decide)
  exact ⟨by simpa using h1.2, by simpa using h2.2⟩

end MetadataCleaner
